import Mathlib

/-!
Verification development for the incremental-build correctness subsystem of
a Swift-compiler build-step wrapper (`toolchain/ios/swiftc.py`).

The Python source is shallowly embedded: Python strings become `List Char`
(`Str`), Python dicts become association lists with insert-or-replace
semantics, the process environment and the working directory become explicit
parameters, filesystem state touched by the cache-directory lifecycle becomes
an explicit map from entry names to entries, and fallible operations return
`Except String`.  Python's `sorted` on strings (code-point lexicographic
order) is modelled by an insertion sort under `strLe`.
-/

namespace Swiftc

/-- Python strings are modelled as lists of characters. -/
abbrev Str := List Char

/-- Coerce a Lean string literal into the `Str` model. -/
def strOf (s : String) : Str := s.toList

/-- Code-point lexicographic order on strings, as Python compares `str`
values (used by `sorted`). -/
def strLe : Str → Str → Bool
  | [], _ => true
  | _ :: _, [] => false
  | a :: as, b :: bs => if a < b then true else if b < a then false else strLe as bs

theorem strLe_total (a b : Str) : strLe a b = true ∨ strLe b a = true := by
  induction a generalizing b with
  | nil => left; rfl
  | cons x xs ih =>
    cases b with
    | nil => right; rfl
    | cons y ys =>
      rcases lt_trichotomy x y with h | h | h
      · left; simp [strLe, h]
      · subst h
        rcases ih ys with h₂ | h₂
        · left; simp [strLe, lt_irrefl, h₂]
        · right; simp [strLe, lt_irrefl, h₂]
      · right; simp [strLe, h]

theorem strLe_antisymm {a b : Str} (h₁ : strLe a b = true) (h₂ : strLe b a = true) :
    a = b := by
  induction a generalizing b with
  | nil =>
    cases b with
    | nil => rfl
    | cons y ys => simp [strLe] at h₂
  | cons x xs ih =>
    cases b with
    | nil => simp [strLe] at h₁
    | cons y ys =>
      rcases lt_trichotomy x y with h | h | h
      · simp [strLe, h, asymm h] at h₂
      · subst h
        simp only [strLe, lt_irrefl, if_false] at h₁ h₂
        exact congrArg (x :: ·) (ih h₁ h₂)
      · simp [strLe, h, asymm h] at h₁

/-- Generic insertion step for the insertion-sort model of Python `sorted`. -/
def insertLe {α : Type} (le : α → α → Bool) (a : α) : List α → List α
  | [] => [a]
  | b :: bs => if le a b then a :: b :: bs else b :: insertLe le a bs

/-- Insertion sort; models Python's `sorted` builtin (for any total order,
the sorted permutation of a list of totally ordered values is unique, so any
correct sort agrees with Python's). -/
def sortLe {α : Type} (le : α → α → Bool) : List α → List α
  | [] => []
  | a :: as => insertLe le a (sortLe le as)

theorem insertLe_perm {α : Type} (le : α → α → Bool) (a : α) (l : List α) :
    List.Perm (insertLe le a l) (a :: l) := by
  induction l with
  | nil => exact List.Perm.refl _
  | cons b bs ih =>
    by_cases h : le a b = true
    · simp [insertLe, h]
    · simp only [insertLe, h, if_false]
      exact ((ih.cons b).trans (List.Perm.swap a b bs))

theorem sortLe_perm {α : Type} (le : α → α → Bool) (l : List α) :
    List.Perm (sortLe le l) l := by
  induction l with
  | nil => exact List.Perm.refl _
  | cons a as ih => exact (insertLe_perm le a (sortLe le as)).trans (ih.cons a)

theorem insertLe_pairwise {α : Type} (le : α → α → Bool)
    (htot : ∀ a b, le a b = true ∨ le b a = true)
    (htrans : ∀ a b c, le a b = true → le b c = true → le a c = true)
    (a : α) (l : List α) (h : l.Pairwise (fun x y => le x y = true)) :
    (insertLe le a l).Pairwise (fun x y => le x y = true) := by
  induction l with
  | nil => simp [insertLe]
  | cons b bs ih =>
    rcases h with _ | ⟨hb, hbs⟩
    by_cases hab : le a b = true
    · simp only [insertLe, hab, if_true]
      refine List.Pairwise.cons ?_ (List.Pairwise.cons hb hbs)
      intro z hz
      rcases List.mem_cons.mp hz with hz' | hz'
      · subst hz'; exact hab
      · exact htrans a b z hab (hb z hz')
    · simp only [insertLe, hab, if_false]
      refine List.Pairwise.cons ?_ (ih hbs)
      intro z hz
      have hz' := (insertLe_perm le a bs).mem_iff.mp hz
      rcases List.mem_cons.mp hz' with hz'' | hz''
      · rcases htot a b with h' | h'
        · exact absurd h' hab
        · rw [hz'']; exact h'
      · exact hb z hz''

theorem sortLe_pairwise {α : Type} (le : α → α → Bool)
    (htot : ∀ a b, le a b = true ∨ le b a = true)
    (htrans : ∀ a b c, le a b = true → le b c = true → le a c = true)
    (l : List α) :
    (sortLe le l).Pairwise (fun x y => le x y = true) := by
  induction l with
  | nil => simp [sortLe]
  | cons a as ih => exact insertLe_pairwise le htot htrans a (sortLe le as) ih

theorem sortLe_eq_of_perm {α : Type} (le : α → α → Bool)
    (htot : ∀ a b, le a b = true ∨ le b a = true)
    (htrans : ∀ a b c, le a b = true → le b c = true → le a c = true)
    (hanti : ∀ a b, le a b = true → le b a = true → a = b)
    {l₁ l₂ : List α} (h : List.Perm l₁ l₂) : sortLe le l₁ = sortLe le l₂ := by
  haveI : IsAntisymm α (fun x y => le x y = true) := ⟨hanti⟩
  exact List.eq_of_perm_of_sorted
    (((sortLe_perm le l₁).trans h).trans (sortLe_perm le l₂).symm)
    (sortLe_pairwise le htot htrans l₁) (sortLe_pairwise le htot htrans l₂)

theorem strLe_trans : ∀ a b c : Str, strLe a b = true → strLe b c = true →
    strLe a c = true := by
  intro a
  induction a with
  | nil => intro b c _ _; rfl
  | cons x xs ih =>
    intro b c h₁ h₂
    cases b with
    | nil => simp [strLe] at h₁
    | cons y ys =>
      cases c with
      | nil => simp [strLe] at h₂
      | cons z zs =>
        rcases lt_trichotomy x y with hxy | hxy | hxy
        · rcases lt_trichotomy y z with hyz | hyz | hyz
          · simp [strLe, lt_trans hxy hyz]
          · subst hyz; simp [strLe, hxy]
          · simp [strLe, hyz, asymm hyz] at h₂
        · subst hxy
          rcases lt_trichotomy x z with hxz | hxz | hxz
          · simp [strLe, hxz]
          · subst hxz
            simp only [strLe, lt_irrefl, if_false] at h₁ h₂ ⊢
            exact ih ys zs h₁ h₂
          · simp [strLe, hxz, asymm hxz] at h₂
        · simp [strLe, hxy, asymm hxy] at h₁

/-- The string-sort instance used wherever the Python code calls `sorted`
on strings. -/
def sortStrs (l : List Str) : List Str := sortLe strLe l

theorem sortStrs_eq_of_perm {l₁ l₂ : List Str} (h : List.Perm l₁ l₂) :
    sortStrs l₁ = sortStrs l₂ :=
  sortLe_eq_of_perm strLe strLe_total strLe_trans
    (fun _ _ h₁ h₂ => strLe_antisymm h₁ h₂) h

/-! ### Association lists: the model of Python dicts and of directory listings -/

/-- Lookup by key (Python `d[k]` / `d.get(k)`; also the content of a
directory entry of a given name).  Keys are unique in every list this is
applied to, matching Python-dict / filesystem semantics. -/
def alookup {α : Type} : List (Str × α) → Str → Option α
  | [], _ => none
  | (k', v) :: rest, k => if k' = k then some v else alookup rest k

/-- Replace the value stored at an existing key, keeping its position
(Python `d[k] = v` when `k in d`; also overwriting an existing file). -/
def dictReplace {α : Type} : List (Str × α) → Str → α → List (Str × α)
  | [], _, _ => []
  | (k', v') :: rest, k, v =>
      if k' = k then (k, v) :: dictReplace rest k v
      else (k', v') :: dictReplace rest k v

/-- Python `d[k] = v`: replace in place if the key exists, else append. -/
def dictInsert {α : Type} (m : List (Str × α)) (k : Str) (v : α) : List (Str × α) :=
  if (alookup m k).isSome then dictReplace m k v else m ++ [(k, v)]

theorem alookup_append {α : Type} (l l' : List (Str × α)) (k : Str) :
    alookup (l ++ l') k =
      match alookup l k with
      | some v => some v
      | none => alookup l' k := by
  induction l with
  | nil => simp [alookup]
  | cons p rest ih =>
    by_cases h : p.1 = k
    · simp [alookup, h]
    · simpa [alookup, h] using ih

theorem alookup_dictReplace_self {α : Type} (m : List (Str × α)) (k : Str) (v : α)
    (h : (alookup m k).isSome) : alookup (dictReplace m k v) k = some v := by
  induction m with
  | nil => simp [alookup] at h
  | cons p rest ih =>
    obtain ⟨pk, pv⟩ := p
    by_cases hp : pk = k
    · subst hp
      simp [dictReplace, alookup]
    · have h' : (alookup rest k).isSome := by simpa [alookup, hp] using h
      simp [dictReplace, alookup, hp, ih h']

theorem alookup_dictReplace_ne {α : Type} (m : List (Str × α)) (k k' : Str) (v : α)
    (h : k' ≠ k) : alookup (dictReplace m k v) k' = alookup m k' := by
  induction m with
  | nil => simp [dictReplace]
  | cons p rest ih =>
    obtain ⟨pk, pv⟩ := p
    by_cases hp : pk = k
    · subst hp
      simp [dictReplace, alookup, Ne.symm h, ih]
    · simp [dictReplace, alookup, hp, ih]

theorem map_fst_dictReplace {α : Type} (m : List (Str × α)) (k : Str) (v : α) :
    (dictReplace m k v).map Prod.fst = m.map Prod.fst := by
  induction m with
  | nil => rfl
  | cons p rest ih =>
    obtain ⟨pk, pv⟩ := p
    by_cases hp : pk = k
    · subst hp
      simp [dictReplace, ih]
    · simp [dictReplace, hp, ih]

/-- Keep exactly the entries whose name satisfies `f`; models the
`for name in os.listdir(...)`-and-delete loop, which removes every entry
whose name fails the keep test. -/
def filterNames {α : Type} (f : Str → Bool) : List (Str × α) → List (Str × α)
  | [] => []
  | (k, v) :: rest =>
      if f k then (k, v) :: filterNames f rest else filterNames f rest

theorem map_fst_filterNames {α : Type} (f : Str → Bool) (m : List (Str × α)) :
    (filterNames f m).map Prod.fst = (m.map Prod.fst).filter f := by
  induction m with
  | nil => rfl
  | cons p rest ih =>
    obtain ⟨pk, pv⟩ := p
    rw [List.map_cons, List.filter_cons]
    by_cases hf : f pk = true
    · simp only [filterNames, hf, if_true, List.map_cons]
      rw [ih]
    · simp only [filterNames, hf, if_false, Bool.false_eq_true]
      rw [ih]

theorem alookup_filterNames {α : Type} (m : List (Str × α)) (f : Str → Bool) (k : Str)
    (hk : f k = true) :
    alookup (filterNames f m) k = alookup m k := by
  induction m with
  | nil => rfl
  | cons p rest ih =>
    obtain ⟨pk, pv⟩ := p
    by_cases hp : pk = k
    · subst hp
      simp only [filterNames, hk, if_true]
      rw [alookup, if_pos rfl, alookup, if_pos rfl]
    · by_cases hf : f pk = true
      · simp only [filterNames, hf, if_true]
        rw [alookup, if_neg hp, alookup, if_neg hp]
        exact ih
      · simp only [filterNames, hf, if_false, Bool.false_eq_true]
        rw [alookup, if_neg hp]
        exact ih

theorem filterNames_eq_self {α : Type} (f : Str → Bool) (m : List (Str × α))
    (h : ∀ p ∈ m, f p.1 = true) : filterNames f m = m := by
  induction m with
  | nil => rfl
  | cons p rest ih =>
    obtain ⟨pk, pv⟩ := p
    simp only [filterNames, h (pk, pv) (List.mem_cons_self _ _), if_true]
    exact congrArg _ (ih fun q hq => h q (List.mem_cons_of_mem _ hq))

theorem mem_filterNames {α : Type} (f : Str → Bool) (m : List (Str × α))
    (p : Str × α) (h : p ∈ filterNames f m) : p ∈ m ∧ f p.1 = true := by
  induction m with
  | nil => simp [filterNames] at h
  | cons q rest ih =>
    obtain ⟨qk, qv⟩ := q
    by_cases hf : f qk = true
    · simp only [filterNames, hf, if_true] at h
      rcases List.mem_cons.mp h with h' | h'
      · subst h'; exact ⟨List.mem_cons_self _ _, hf⟩
      · exact ⟨List.mem_cons_of_mem _ (ih h').1, (ih h').2⟩
    · simp only [filterNames, hf, if_false, Bool.false_eq_true] at h
      exact ⟨List.mem_cons_of_mem _ (ih h).1, (ih h).2⟩

theorem alookup_isSome_iff_mem {α : Type} (m : List (Str × α)) (k : Str) :
    (alookup m k).isSome = true ↔ k ∈ m.map Prod.fst := by
  induction m with
  | nil => simp [alookup]
  | cons p rest ih =>
    obtain ⟨pk, pv⟩ := p
    by_cases hp : pk = k
    · subst hp
      have h1 : alookup ((pk, pv) :: rest) pk = some pv := by
        simp [alookup]
      rw [h1]
      constructor
      · intro _
        rw [List.map_cons]
        exact List.mem_cons_self _ _
      · intro _
        rfl
    · simp only [alookup, hp, if_false, List.map_cons, List.mem_cons]
      rw [ih]
      constructor
      · exact fun hm => Or.inr hm
      · intro hm
        rcases hm with h' | h'
        · exact absurd h'.symm hp
        · exact h'

/-! ### FileWriter (`swiftc.py` lines 27-63)

`FileWriter` buffers everything written inside the `with`-block in memory and
commits in `__exit__`.  The filesystem slot for the single target path is
modelled as `Option Str` (`none` = the path does not exist, `some c` = a file
with content `c`).  `__exit__` is modelled as a function from the exception
flag, the current slot state and the buffered content to the new slot state,
a flag telling whether a write syscall happened (exactly when the file's
modification time changes), and the context-manager suppression flag
(`__exit__` falls off the end in both branches, returning `None`, so the
suppression flag is always `false` and a pending exception propagates). -/

/-- `FileWriter.__exit__`: returns (new slot state, wrote?, suppress?). -/
def fileWriter_exit (exc : Bool) (slot : Option Str) (new_content : Str) :
    Option Str × Bool × Bool :=
  if exc then (slot, false, false)
  else
    match slot with
    | some old_content =>
        if old_content = new_content then (slot, false, false)
        else (some new_content, true, false)
    | none => (some new_content, true, false)

/-! ### build_signature (`swiftc.py` lines 112-125)

The Python function feeds a byte stream into `hashlib.sha1` through a
sequence of `m.update(...)` calls and returns `m.hexdigest()`.  `sha1` is
outside this repository and is a deterministic pure function of the
concatenated update bytes, so two invocations produce identical hex digests
exactly when they feed identical byte streams; the embedding therefore
models the signature by that byte stream (the concatenation of all strings
passed to `m.update`, utf-8 being injective on strings).  The process
environment (`os.environ`, a dict) is the explicit `env` parameter. -/

/-- Selection test from line 121:
`key.endswith('_VERSION') or key == 'DEVELOPER_DIR'`. -/
def includedEnvKey (k : Str) : Bool :=
  (strOf "_VERSION").isSuffixOf k || k = strOf "DEVELOPER_DIR"

/-- Decimal rendering of an index, as `f'{i}=...'` renders `i`. -/
def natStr (n : Nat) : Str := (Nat.repr n).toList

/-- The byte stream hashed by `build_signature(env, args)`:
for each key of `sorted(env)` passing the selection test, `f'{key}={env[key]}'`,
then for each argument, `f'{i}={arg}'` with its position `i`. -/
def build_signature (env : List (Str × Str)) (args : List Str) : Str :=
  (((sortStrs (env.map Prod.fst)).filter includedEnvKey).map
      (fun k => k ++ '=' :: ((alookup env k).getD []))).flatten
  ++ (args.enum.map (fun p => natStr p.1 ++ '=' :: p.2)).flatten

theorem sortStrs_perm (l : List Str) : List.Perm (sortStrs l) l :=
  sortLe_perm strLe l

theorem mem_filter_included_sorted (env : List (Str × Str)) (k : Str) :
    k ∈ (sortStrs (env.map Prod.fst)).filter includedEnvKey ↔
      includedEnvKey k = true ∧ (alookup env k).isSome = true := by
  rw [List.mem_filter, (sortStrs_perm (env.map Prod.fst)).mem_iff,
    ← alookup_isSome_iff_mem]
  exact and_comm

/-- C1: `build_signature` is a deterministic pure function of
(environment snapshot, argument list): identical inputs give identical
hashed streams, hence identical digests; and any two environment snapshots
(with unique keys, as Python dicts guarantee) that agree on every variable
whose name ends in `_VERSION` or equals `DEVELOPER_DIR` — agreement meaning
the variable is present in one iff it is present in the other, with equal
values — yield the identical signature for the same argument list, so
changing an excluded environment variable never changes the digest. -/
theorem c1_build_signature_env_independence :
    ∀ (env env₁ env₂ : List (Str × Str)) (args : List Str),
      build_signature env args = build_signature env args ∧
      ((env₁.map Prod.fst).Nodup → (env₂.map Prod.fst).Nodup →
        (∀ k, includedEnvKey k = true → alookup env₁ k = alookup env₂ k) →
        build_signature env₁ args = build_signature env₂ args) := by
  intro env env₁ env₂ args
  refine ⟨rfl, ?_⟩
  intro hn₁ hn₂ hagree
  have hsorted : ∀ e : List (Str × Str),
      ((sortStrs (e.map Prod.fst)).filter includedEnvKey).Pairwise
        (fun x y => strLe x y = true) := by
    intro e
    exact (sortLe_pairwise strLe strLe_total strLe_trans _).filter _
  have hnd : ∀ e : List (Str × Str), (e.map Prod.fst).Nodup →
      ((sortStrs (e.map Prod.fst)).filter includedEnvKey).Nodup := by
    intro e he
    exact ((sortStrs_perm _).symm.nodup he).filter _
  have hmemiff : ∀ k, k ∈ (sortStrs (env₁.map Prod.fst)).filter includedEnvKey ↔
      k ∈ (sortStrs (env₂.map Prod.fst)).filter includedEnvKey := by
    intro k
    rw [mem_filter_included_sorted, mem_filter_included_sorted]
    constructor
    · rintro ⟨hi, hs⟩
      refine ⟨hi, ?_⟩
      rw [← hagree k hi]
      exact hs
    · rintro ⟨hi, hs⟩
      refine ⟨hi, ?_⟩
      rw [hagree k hi]
      exact hs
  have hperm := (List.perm_ext_iff_of_nodup (hnd env₁ hn₁) (hnd env₂ hn₂)).mpr hmemiff
  haveI : IsAntisymm Str (fun x y => strLe x y = true) :=
    ⟨fun _ _ h₁ h₂ => strLe_antisymm h₁ h₂⟩
  have hL : (sortStrs (env₁.map Prod.fst)).filter includedEnvKey =
      (sortStrs (env₂.map Prod.fst)).filter includedEnvKey :=
    List.eq_of_perm_of_sorted hperm (hsorted env₁) (hsorted env₂)
  have hmap : ((sortStrs (env₁.map Prod.fst)).filter includedEnvKey).map
        (fun k => k ++ '=' :: ((alookup env₁ k).getD [])) =
      ((sortStrs (env₂.map Prod.fst)).filter includedEnvKey).map
        (fun k => k ++ '=' :: ((alookup env₂ k).getD [])) := by
    rw [hL]
    apply List.map_congr_left
    intro k hk
    have hi := ((mem_filter_included_sorted env₂ k).mp hk).1
    rw [hagree k hi]
  unfold build_signature
  rw [hmap]

/-- Witness for C1: an environment containing only the excluded variable
`TERM` produces the same signature as the empty environment. -/
theorem c1_build_signature_env_independence_witness :
    build_signature [(strOf "TERM", strOf "xterm-256color")] [strOf "-c"] =
      build_signature [] [strOf "-c"] := by
  apply (c1_build_signature_env_independence
      [] [(strOf "TERM", strOf "xterm-256color")] [] [strOf "-c"]).2
  · decide
  · decide
  · intro k hk
    have hne : strOf "TERM" ≠ k := by
      intro he
      rw [← he] at hk
      exact absurd hk (by decide)
    simp only [alookup]
    rw [if_neg hne]

/-- C8: completing a `FileWriter` context (no exception) with content equal
to the existing file's content performs no write, so the file and its
modification time are unchanged; with different content it replaces the
content (one write); on a nonexistent path it creates the file (one write).
The middle `Bool` of the result is `true` exactly when a write syscall
happened, i.e. when the modification time changes. -/
theorem c8_filewriter_conditional_write :
    ∀ (c new : Str),
      fileWriter_exit false (some c) c = (some c, false, false) ∧
      (c ≠ new → fileWriter_exit false (some c) new = (some new, true, false)) ∧
      fileWriter_exit false none new = (some new, true, false) := by
  intro c new
  refine ⟨?_, ?_, rfl⟩
  · simp [fileWriter_exit]
  · intro hne
    simp [fileWriter_exit, hne]

/-- Witness for C8 at concrete contents. -/
theorem c8_filewriter_conditional_write_witness :
    strOf "a" ≠ strOf "b" ∧
      fileWriter_exit false (some (strOf "a")) (strOf "b") =
        (some (strOf "b"), true, false) :=
  ⟨by decide, (c8_filewriter_conditional_write (strOf "a") (strOf "b")).2.1 (by decide)⟩

/-- C9: exiting a `FileWriter` context with a pending exception writes
nothing: a nonexistent target stays nonexistent and an existing target keeps
its previous content (the slot state is returned unchanged, the wrote flag
is `false`), and the suppression flag is `false`, so the exception
propagates. -/
theorem c9_filewriter_exception_no_write :
    ∀ (slot : Option Str) (new : Str),
      fileWriter_exit true slot new = (slot, false, false) := by
  intro slot new
  rfl

/-! ### create_build_cache_dir / ensure_directory (`swiftc.py` lines 66-109)

The persistent branch of `create_build_cache_dir` manipulates the children
of `args.derived_data_dir`.  A directory tree is modelled by `FsEntry`
(file with content, or directory with named children); the derived-data root
is `Option (List (Str × FsEntry))` — `none` when the configured path does
not exist yet (`os.path.isdir` false, so the eviction loop is skipped), and
`some children` otherwise.  Filesystem names are unique within a directory.

The ephemeral branch (no `-derived-data-dir`, `tempfile.TemporaryDirectory`)
does not touch the persistent root and is outside this model.

Errors are modelled faithfully: `os.makedirs` on a path occupied by a file
raises (`ensure_directory` only skips creation when the path `isdir`), and
`FileWriter`'s read of an existing stamp path that is a directory raises. -/

inductive FsEntry where
  | file (content : Str)
  | dir (entries : List (Str × FsEntry))

/-- Result of the persistent branch of `create_build_cache_dir`:
the root's children afterwards, the names evicted by the cleanup loop,
whether `os.makedirs` had to create the generation directory, and whether
the stamp `FileWriter` performed a write. -/
structure CacheResult where
  root : List (Str × FsEntry)
  deleted : List Str
  createdDir : Bool
  stampWrote : Bool

/-- `f'{args.module_name}.stamp'`. -/
def stampName (module_name : Str) : Str := module_name ++ strOf ".stamp"

/-- Keep test of the eviction loop (line 88):
`name not in (build_signature, stamp_name)` means *delete*; keep its
negation. -/
def keepName (build_sig stamp : Str) (n : Str) : Bool := n = build_sig || n = stamp

/-- Step 3 of `create_build_cache_dir`: the `FileWriter(stamp_path)`
write of the empty string, applied after eviction and `ensure_directory`
left the children in state `kept₁`. -/
def cacheStampStep (kept₁ : List (Str × FsEntry)) (deleted : List Str)
    (createdDir : Bool) (stamp : Str) : Except String CacheResult :=
  match alookup kept₁ stamp with
  | some (.dir _) => .error "IsADirectoryError: open on a directory"
  | some (.file c) =>
      if c = [] then .ok ⟨kept₁, deleted, createdDir, false⟩
      else .ok ⟨dictReplace kept₁ stamp (.file []), deleted, createdDir, true⟩
  | none => .ok ⟨kept₁ ++ [(stamp, .file [])], deleted, createdDir, true⟩

/-- Names evicted by the cleanup loop: every child failing the keep test. -/
def cacheDeleted (build_sig stamp : Str) (children : List (Str × FsEntry)) : List Str :=
  (children.filter (fun p => !(keepName build_sig stamp p.1))).map Prod.fst

/-- `create_build_cache_dir(args, build_signature)`, persistent branch
(`args.derived_data_dir` set).  Steps, in the source's order:
1. if the root exists, delete every child whose name is neither the
   signature nor the stamp name (lines 86-93);
2. `ensure_directory(join(root, build_signature))` (line 95): `os.makedirs`
   if the path is not a directory — creating it if absent, raising
   `FileExistsError` if a non-directory occupies the name;
3. write `''` to the stamp path through `FileWriter` (lines 98-100). -/
def create_build_cache_dir (root : Option (List (Str × FsEntry)))
    (module_name build_sig : Str) : Except String CacheResult :=
  match alookup (filterNames (keepName build_sig (stampName module_name))
      (root.getD [])) build_sig with
  | some (.file _) => .error "FileExistsError: os.makedirs on existing file"
  | some (.dir _) =>
      cacheStampStep
        (filterNames (keepName build_sig (stampName module_name)) (root.getD []))
        (cacheDeleted build_sig (stampName module_name) (root.getD []))
        false (stampName module_name)
  | none =>
      cacheStampStep
        (filterNames (keepName build_sig (stampName module_name)) (root.getD [])
          ++ [(build_sig, .dir [])])
        (cacheDeleted build_sig (stampName module_name) (root.getD []))
        true (stampName module_name)

theorem map_fst_filter_pairs {α : Type} (f : Str → Bool) (m : List (Str × α)) :
    (m.filter (fun p => f p.1)).map Prod.fst = (m.map Prod.fst).filter f := by
  induction m with
  | nil => rfl
  | cons p rest ih =>
    obtain ⟨pk, pv⟩ := p
    rw [List.map_cons, List.filter_cons, List.filter_cons]
    by_cases hf : f pk = true
    · simp only [hf, decide_eq_true_eq, if_pos, List.map_cons]
      rw [ih]
    · simp only [hf, Bool.false_eq_true, decide_eq_true_eq, if_false]
      rw [ih]

/-- C2: preparing the persistent cache directory on a root whose children
are exactly an unrelated entry `A`, the current signature's generation
directory, and the staleness-stamp file, removes exactly `A` and leaves the
generation directory's contents untouched: afterwards the children are
exactly the generation directory (with its original subtree) and the stamp. -/
theorem c2_cache_eviction_preserves_generation :
    ∀ (root : List (Str × FsEntry)) (module sig A : Str)
      (d : List (Str × FsEntry)) (c : Str),
      List.Perm (root.map Prod.fst) [A, sig, stampName module] →
      A ≠ sig → A ≠ stampName module → sig ≠ stampName module →
      alookup root sig = some (.dir d) →
      alookup root (stampName module) = some (.file c) →
      ∃ res, create_build_cache_dir (some root) module sig = .ok res ∧
        List.Perm (res.root.map Prod.fst) [sig, stampName module] ∧
        alookup res.root sig = some (.dir d) ∧
        res.deleted = [A] := by
  intro root module sig A d c hperm hA1 hA2 hsigst hsig hst
  have hkeep_sig : keepName sig (stampName module) sig = true := by
    simp [keepName]
  have hkeep_st : keepName sig (stampName module) (stampName module) = true := by
    simp [keepName]
  have hkeep_A : keepName sig (stampName module) A = false := by
    simp [keepName, hA1, hA2]
  have hkept_sig : alookup (filterNames (keepName sig (stampName module)) root) sig
      = some (.dir d) := by
    rw [alookup_filterNames root _ sig hkeep_sig]
    exact hsig
  have hkept_st : alookup (filterNames (keepName sig (stampName module)) root)
      (stampName module) = some (.file c) := by
    rw [alookup_filterNames root _ _ hkeep_st]
    exact hst
  have hkept_names : List.Perm
      ((filterNames (keepName sig (stampName module)) root).map Prod.fst)
      [sig, stampName module] := by
    rw [map_fst_filterNames]
    have h₁ := hperm.filter (keepName sig (stampName module))
    have h₂ : [A, sig, stampName module].filter (keepName sig (stampName module))
        = [sig, stampName module] := by
      rw [List.filter_cons, List.filter_cons, List.filter_cons]
      simp [hkeep_sig, hkeep_st, hkeep_A]
    rw [← h₂]
    exact h₁
  have hdeleted : cacheDeleted sig (stampName module) root = [A] := by
    unfold cacheDeleted
    rw [map_fst_filter_pairs (fun n => !(keepName sig (stampName module) n)) root]
    apply List.perm_singleton.mp
    have h₁ := hperm.filter (fun n => !(keepName sig (stampName module) n))
    have h₂ : [A, sig, stampName module].filter
        (fun n => !(keepName sig (stampName module) n)) = [A] := by
      rw [List.filter_cons, List.filter_cons, List.filter_cons]
      simp [hkeep_sig, hkeep_st, hkeep_A]
    rw [← h₂]
    exact h₁
  have hrun : create_build_cache_dir (some root) module sig =
      cacheStampStep (filterNames (keepName sig (stampName module)) root)
        (cacheDeleted sig (stampName module) root)
        false (stampName module) := by
    unfold create_build_cache_dir
    simp only [Option.getD_some, hkept_sig]
  by_cases hc : c = []
  · subst hc
    refine ⟨⟨filterNames (keepName sig (stampName module)) root,
        [A], false, false⟩, ?_, hkept_names, hkept_sig, rfl⟩
    rw [hrun, hdeleted]
    unfold cacheStampStep
    simp [hkept_st]
  · refine ⟨⟨dictReplace (filterNames (keepName sig (stampName module)) root)
        (stampName module) (.file []), [A], false, true⟩, ?_, ?_, ?_, rfl⟩
    · rw [hrun, hdeleted]
      unfold cacheStampStep
      simp only [hkept_st]
      rw [if_neg hc]
    · rw [map_fst_dictReplace]
      exact hkept_names
    · rw [alookup_dictReplace_ne _ _ _ _ hsigst]
      exact hkept_sig

/-- Witness for C2: a concrete root `{stale.txt, sig1/, Mod.stamp}` with
signature `sig1` and module `Mod`. -/
theorem c2_cache_eviction_preserves_generation_witness :
    ∃ res, create_build_cache_dir
        (some [(strOf "stale.txt", .file (strOf "junk")),
               (strOf "sig1", .dir [(strOf "ModuleCache.noindex", .dir [])]),
               (strOf "Mod.stamp", .file [])])
        (strOf "Mod") (strOf "sig1") = .ok res ∧
      List.Perm (res.root.map Prod.fst) [strOf "sig1", stampName (strOf "Mod")] ∧
      alookup res.root (strOf "sig1")
        = some (.dir [(strOf "ModuleCache.noindex", .dir [])]) ∧
      res.deleted = [strOf "stale.txt"] := by
  apply c2_cache_eviction_preserves_generation
    _ (strOf "Mod") (strOf "sig1") (strOf "stale.txt")
    [(strOf "ModuleCache.noindex", .dir [])] []
  · decide
  · decide
  · decide
  · decide
  · rfl
  · rfl

theorem mem_dictReplace {α : Type} (m : List (Str × α)) (k : Str) (v : α)
    (p : Str × α) (h : p ∈ dictReplace m k v) : p ∈ m ∨ p = (k, v) := by
  induction m with
  | nil => simp [dictReplace] at h
  | cons q rest ih =>
    obtain ⟨qk, qv⟩ := q
    by_cases hq : qk = k
    · subst hq
      simp only [dictReplace, if_pos rfl] at h
      rcases List.mem_cons.mp h with h' | h'
      · exact Or.inr h'
      · rcases ih h' with h'' | h''
        · exact Or.inl (List.mem_cons_of_mem _ h'')
        · exact Or.inr h''
    · simp only [dictReplace, hq, if_false] at h
      rcases List.mem_cons.mp h with h' | h'
      · exact Or.inl (List.mem_cons.mpr (Or.inl h'))
      · rcases ih h' with h'' | h''
        · exact Or.inl (List.mem_cons_of_mem _ h'')
        · exact Or.inr h''

/-- A cache root whose children all pass the keep test, whose generation
entry is a directory, and whose stamp entry is an empty file, is a fixed
point of `create_build_cache_dir`: nothing is evicted, nothing is created,
nothing is written. -/
theorem create_build_cache_dir_stable (module sig : Str)
    (final d' : List (Str × FsEntry))
    (hkeep : ∀ p ∈ final, keepName sig (stampName module) p.1 = true)
    (hsig : alookup final sig = some (.dir d'))
    (hst : alookup final (stampName module) = some (.file [])) :
    create_build_cache_dir (some final) module sig = .ok ⟨final, [], false, false⟩ := by
  have hkept : filterNames (keepName sig (stampName module)) final = final :=
    filterNames_eq_self _ _ hkeep
  have hdel : cacheDeleted sig (stampName module) final = [] := by
    unfold cacheDeleted
    have : final.filter (fun p => !(keepName sig (stampName module) p.1)) = [] := by
      rw [List.filter_eq_nil_iff]
      intro p hp
      simp [hkeep p hp]
    rw [this]
    rfl
  unfold create_build_cache_dir
  simp only [Option.getD_some, hkept, hsig, hdel]
  unfold cacheStampStep
  simp [hst]

/-- After a successful stamp step on children that all pass the keep test
and contain the generation directory, the resulting root is a fixed point
of `create_build_cache_dir`. -/
theorem cacheStampStep_second_run (module sig : Str)
    (kept₁ : List (Str × FsEntry)) {del : List Str} {created : Bool}
    {r : CacheResult}
    (hkeep : ∀ p ∈ kept₁, keepName sig (stampName module) p.1 = true)
    (hsig : ∃ d', alookup kept₁ sig = some (.dir d'))
    (hrun : cacheStampStep kept₁ del created (stampName module) = .ok r) :
    create_build_cache_dir (some r.root) module sig
      = .ok ⟨r.root, [], false, false⟩ := by
  obtain ⟨d', hsigl⟩ := hsig
  unfold cacheStampStep at hrun
  split at hrun
  · exact absurd hrun (by simp)
  · rename_i c heq
    by_cases hc : c = []
    · subst hc
      rw [if_pos rfl] at hrun
      simp only [Except.ok.injEq] at hrun
      subst hrun
      exact create_build_cache_dir_stable module sig _ d' hkeep hsigl heq
    · rw [if_neg hc] at hrun
      simp only [Except.ok.injEq] at hrun
      subst hrun
      have hne : sig ≠ stampName module := by
        intro he
        rw [he, heq] at hsigl
        simp at hsigl
      apply create_build_cache_dir_stable module sig _ d'
      · intro p hp
        rcases mem_dictReplace _ _ _ p hp with hp' | hp'
        · exact hkeep p hp'
        · rw [hp']
          simp [keepName]
      · rw [alookup_dictReplace_ne _ _ _ _ hne]
        exact hsigl
      · apply alookup_dictReplace_self
        rw [heq]
        rfl
  · rename_i heq
    simp only [Except.ok.injEq] at hrun
    subst hrun
    apply create_build_cache_dir_stable module sig _ d'
    · intro p hp
      rcases List.mem_append.mp hp with hp' | hp'
      · exact hkeep p hp'
      · rcases List.mem_singleton.mp hp' with rfl
        simp [keepName]
    · rw [alookup_append, hsigl]
    · rw [alookup_append, heq]
      simp only [alookup]
      rw [if_pos trivial]

/-- C10: preparing the persistent cache directory is idempotent — a second
run immediately after a successful first run evicts nothing, creates no
directory, rewrites no file (in particular the empty stamp is not
rewritten), and returns the root's children byte-identical to the first
run's result. -/
theorem c10_cache_prepare_idempotent :
    ∀ (root : Option (List (Str × FsEntry))) (module sig : Str) (r : CacheResult),
      create_build_cache_dir root module sig = .ok r →
      create_build_cache_dir (some r.root) module sig = .ok ⟨r.root, [], false, false⟩ := by
  intro root module sig r hrun
  unfold create_build_cache_dir at hrun
  split at hrun
  · exact absurd hrun (by simp)
  · rename_i d heq
    have hkeep₁ : ∀ p ∈ filterNames (keepName sig (stampName module)) (root.getD []),
        keepName sig (stampName module) p.1 = true :=
      fun p hp => (mem_filterNames _ _ _ hp).2
    exact cacheStampStep_second_run module sig _ hkeep₁ ⟨d, heq⟩ hrun
  · rename_i heq
    have hkeep₁ : ∀ p ∈ filterNames (keepName sig (stampName module)) (root.getD [])
        ++ [(sig, FsEntry.dir [])], keepName sig (stampName module) p.1 = true := by
      intro p hp
      rcases List.mem_append.mp hp with hp' | hp'
      · exact (mem_filterNames _ _ _ hp').2
      · rcases List.mem_singleton.mp hp' with rfl
        simp [keepName]
    have hsig₁ : alookup (filterNames (keepName sig (stampName module)) (root.getD [])
        ++ [(sig, FsEntry.dir [])]) sig = some (.dir []) := by
      rw [alookup_append, heq]
      simp only [alookup]
      rw [if_pos trivial]
    exact cacheStampStep_second_run module sig _ hkeep₁ ⟨[], hsig₁⟩ hrun

/-- Witness for C10: second preparation after a first run on a root with a
stale entry is the identity, with no eviction, creation, or write. -/
theorem c10_cache_prepare_idempotent_witness :
    create_build_cache_dir
        (some [(strOf "sig1", .dir [(strOf "Index.noindex", .dir [])]),
               (strOf "old-generation", .dir [])])
        (strOf "Mod") (strOf "sig1")
      = .ok ⟨[(strOf "sig1", .dir [(strOf "Index.noindex", .dir [])]),
              (strOf "Mod.stamp", .file [])],
             [strOf "old-generation"], false, true⟩ ∧
    create_build_cache_dir
        (some [(strOf "sig1", .dir [(strOf "Index.noindex", .dir [])]),
               (strOf "Mod.stamp", .file [])])
        (strOf "Mod") (strOf "sig1")
      = .ok ⟨[(strOf "sig1", .dir [(strOf "Index.noindex", .dir [])]),
              (strOf "Mod.stamp", .file [])],
             [], false, false⟩ := by
  constructor
  · rfl
  · exact c10_cache_prepare_idempotent
      (some [(strOf "sig1", .dir [(strOf "Index.noindex", .dir [])]),
             (strOf "old-generation", .dir [])])
      (strOf "Mod") (strOf "sig1")
      ⟨[(strOf "sig1", .dir [(strOf "Index.noindex", .dir [])]),
        (strOf "Mod.stamp", .file [])],
       [strOf "old-generation"], false, true⟩
      (by rfl)

/-! ### POSIX path functions (`os.path` as used by `swiftc.py`)

The tool runs on a POSIX filesystem (`os.sep = '/'`); `os.path.basename`,
`splitext`, `join`, `abspath`, `normpath` and `relpath` are translated from
CPython's `posixpath`.  The process working directory (`os.getcwd()`), an
ambient input of `os.path.abspath` and `os.path.relpath`, is passed
explicitly as `cwd`. -/

/-- Index of the last occurrence of `c` in `p` (Python `str.rfind`,
`none` for -1). -/
def rfindIdx (c : Char) : Str → Option Nat
  | [] => none
  | x :: xs =>
      match rfindIdx c xs with
      | some i => some (i + 1)
      | none => if x = c then some 0 else none

/-- `posixpath.basename`: the part after the last `'/'`. -/
def pyBasename (p : Str) : Str :=
  (p.reverse.takeWhile (fun c => !(c = '/'))).reverse

/-- `posixpath.splitext`: split off the extension at the last dot of the
final component, unless every character of the component before that dot is
itself a dot. -/
def pySplitext (p : Str) : Str × Str :=
  let sepIdx : Int := match rfindIdx '/' p with | some i => (i : Int) | none => -1
  let dotIdx : Int := match rfindIdx '.' p with | some i => (i : Int) | none => -1
  if dotIdx > sepIdx then
    if ((p.drop (sepIdx + 1).toNat).take (dotIdx - sepIdx - 1).toNat).any
        (fun ch => !(ch = '.')) then
      (p.take dotIdx.toNat, p.drop dotIdx.toNat)
    else (p, [])
  else (p, [])

/-- `posixpath.join` for two components. -/
def pyJoin (a b : Str) : Str :=
  if b.head? = some '/' then b
  else if a = [] ∨ a.getLast? = some '/' then a ++ b
  else a ++ '/' :: b

/-- Split on a character, keeping empty components (Python `str.split(sep)`
with an explicit separator). -/
def splitOnChar (sep : Char) : Str → List Str
  | [] => [[]]
  | c :: cs =>
      match splitOnChar sep cs with
      | [] => if c = sep then [[], []] else [[c]]
      | t :: ts => if c = sep then [] :: t :: ts else (c :: t) :: ts

/-- `posixpath.normpath`. -/
def normpath (p : Str) : Str :=
  if p = [] then strOf "." else
  let initialSlashes : Nat :=
    if p.head? = some '/' then
      if (strOf "//").isPrefixOf p ∧ ¬ (strOf "///").isPrefixOf p then 2 else 1
    else 0
  let newComps := (splitOnChar '/' p).foldl (fun acc comp =>
      if comp = [] ∨ comp = strOf "." then acc
      else if ¬ (comp = strOf "..") ∨ (initialSlashes = 0 ∧ acc = []) ∨
          (acc ≠ [] ∧ acc.getLast? = some (strOf "..")) then acc ++ [comp]
      else if acc ≠ [] then acc.dropLast
      else acc) []
  let joined := List.replicate initialSlashes '/' ++
    List.intercalate (strOf "/") newComps
  if joined = [] then strOf "." else joined

/-- `posixpath.abspath`, with the working directory explicit. -/
def abspath (p cwd : Str) : Str :=
  normpath (if p.head? = some '/' then p else pyJoin cwd p)

/-- Number of common leading components (`posixpath.commonprefix` on a pair
of component lists). -/
def commonPrefixLen : List Str → List Str → Nat
  | a :: as, b :: bs => if a = b then 1 + commonPrefixLen as bs else 0
  | _, _ => 0

/-- `posixpath.relpath(path, start)`, with the working directory explicit.
CPython raises `ValueError` on an empty `path`; every call site in the
model guards or guarantees nonemptiness, so the function is left total. -/
def relpath (path start cwd : Str) : Str :=
  let startList := (splitOnChar '/' (abspath start cwd)).filter (fun x => !x.isEmpty)
  let pathList := (splitOnChar '/' (abspath path cwd)).filter (fun x => !x.isEmpty)
  let i := commonPrefixLen startList pathList
  let relList := List.replicate (startList.length - i) (strOf "..") ++ pathList.drop i
  if relList = [] then strOf "." else List.intercalate (strOf "/") relList

/-! ### Output-file-map generation (`swiftc.py` lines 128-192)

JSON fragments are modelled as association lists of (key, path) pairs; dict
literal plus `update` with fresh keys preserves insertion order, modelled by
list append.  Only the `args` fields these functions read are carried. -/

structure Args where
  module_name : Str
  src_dir : Str
  target_out_dir : Str
  whole_module_optimization : Bool
  sources : List Str

/-- `generate_source_output_file_map_fragment(args, filename)`; the
`assert os.path.splitext(filename)[1] == '.swift'` contract violation is an
`AssertionError`. -/
def generate_source_output_file_map_fragment (cwd : Str) (args : Args)
    (filename : Str) : Except String (List (Str × Str)) :=
  if (pySplitext filename).2 = strOf ".swift" then
    .ok ([(strOf "index-unit-output-path",
            '/' :: (pyJoin args.target_out_dir (pySplitext (pyBasename filename)).1
              ++ strOf ".o")),
          (strOf "object",
            abspath (pyJoin args.target_out_dir (pySplitext (pyBasename filename)).1) cwd
              ++ strOf ".o")] ++
      (if args.whole_module_optimization then [] else
        [(strOf "const-values",
           abspath (pyJoin args.target_out_dir (pySplitext (pyBasename filename)).1) cwd
             ++ strOf ".swiftconstvalues"),
         (strOf "dependencies",
           abspath (pyJoin args.target_out_dir (pySplitext (pyBasename filename)).1) cwd
             ++ strOf ".d"),
         (strOf "diagnostics",
           abspath (pyJoin args.target_out_dir (pySplitext (pyBasename filename)).1) cwd
             ++ strOf ".dia"),
         (strOf "swift-dependencies",
           abspath (pyJoin args.target_out_dir (pySplitext (pyBasename filename)).1) cwd
             ++ strOf ".swiftdeps")]))
  else .error "AssertionError: source extension is not .swift"

/-- `generate_module_output_file_map_fragment(args)`. -/
def generate_module_output_file_map_fragment (cwd : Str) (args : Args) :
    List (Str × Str) :=
  if args.whole_module_optimization then
    [(strOf "const-values",
       abspath (pyJoin args.target_out_dir args.module_name) cwd
         ++ strOf ".swiftconstvalues"),
     (strOf "dependencies",
       abspath (pyJoin args.target_out_dir args.module_name) cwd ++ strOf ".d"),
     (strOf "diagnostics",
       abspath (pyJoin args.target_out_dir args.module_name) cwd ++ strOf ".dia"),
     (strOf "swift-dependencies",
       abspath (pyJoin args.target_out_dir args.module_name) cwd
         ++ strOf ".swiftdeps")]
  else
    [(strOf "emit-module-dependencies",
       abspath (pyJoin args.target_out_dir args.module_name) cwd ++ strOf ".d"),
     (strOf "emit-module-diagnostics",
       abspath (pyJoin args.target_out_dir args.module_name) cwd ++ strOf ".dia"),
     (strOf "swift-dependencies",
       abspath (pyJoin args.target_out_dir args.module_name) cwd
         ++ strOf ".swiftdeps")]

/-- `generate_output_file_map(args)`: the module record under the empty key
first, then one record per source file, with Python-dict assignment
semantics. -/
def generate_output_file_map (cwd : Str) (args : Args) :
    Except String (List (Str × List (Str × Str))) :=
  args.sources.foldlM
    (fun m filename => do
      let frag ← generate_source_output_file_map_fragment cwd args filename
      pure (dictInsert m filename frag))
    [(([] : Str), generate_module_output_file_map_fragment cwd args)]

theorem gen_source_fragment_ok (cwd : Str) (args : Args) (filename : Str)
    (h : (pySplitext filename).2 = strOf ".swift") :
    ∃ frag, generate_source_output_file_map_fragment cwd args filename = .ok frag := by
  unfold generate_source_output_file_map_fragment
  rw [if_pos h]
  exact ⟨_, rfl⟩

theorem generate_output_file_map_fold (cwd : Str) (args : Args) :
    ∀ (sources : List Str) (m : List (Str × List (Str × Str))),
      sources.Nodup →
      (∀ s ∈ sources, (pySplitext s).2 = strOf ".swift") →
      (∀ s ∈ sources, alookup m s = none) →
      ∃ m', sources.foldlM
          (fun m filename => do
            let frag ← generate_source_output_file_map_fragment cwd args filename
            pure (dictInsert m filename frag)) m = .ok m' ∧
        m'.map Prod.fst = m.map Prod.fst ++ sources := by
  intro sources
  induction sources with
  | nil =>
    intro m _ _ _
    exact ⟨m, rfl, by simp⟩
  | cons s rest ih =>
    intro m hnd hext hnotin
    obtain ⟨frag, hfrag⟩ := gen_source_fragment_ok cwd args s
      (hext s (List.mem_cons_self _ _))
    have hins : dictInsert m s frag = m ++ [(s, frag)] := by
      unfold dictInsert
      rw [hnotin s (List.mem_cons_self _ _)]
      rfl
    have hnotin' : ∀ t ∈ rest, alookup (m ++ [(s, frag)]) t = none := by
      intro t ht
      rw [alookup_append, hnotin t (List.mem_cons_of_mem _ ht)]
      have hst : s ≠ t := by
        intro he
        subst he
        exact (List.nodup_cons.mp hnd).1 ht
      simp [alookup, hst]
    obtain ⟨m', hfold, hkeys⟩ := ih (m ++ [(s, frag)]) (List.nodup_cons.mp hnd).2
      (fun t ht => hext t (List.mem_cons_of_mem _ ht)) hnotin'
    refine ⟨m', ?_, ?_⟩
    · rw [List.foldlM_cons, hfrag]
      simpa [hins] using hfold
    · rw [hkeys, List.map_append]
      simp

/-- Concrete arguments on which the claim "exactly `len(sources)+1`
entries for every list of source paths" fails: a duplicated source path. -/
def c3dupArgs : Args :=
  ⟨strOf "M", strOf "/src", strOf "obj", false, [strOf "a.swift", strOf "a.swift"]⟩

/-- Counterexample to C3 as stated: with the duplicate source list
`['a.swift', 'a.swift']` the generated map has 2 entries (Python-dict
assignment collapses equal keys), not `len(sources)+1 = 3`. -/
theorem c3_counterexample_duplicate_sources :
    (generate_output_file_map (strOf "/cwd") c3dupArgs).map List.length = .ok 2 ∧
    c3dupArgs.sources.length + 1 = 3 := ⟨rfl, rfl⟩

/-- C3 (amended): for every duplicate-free list of source paths each
carrying the `.swift` extension demanded by the function's assertion, the
output-file map has exactly `len(sources)+1` entries — its keys are the
module's empty key followed by each source path in order, and the module
key is distinct from every source key. -/
theorem c3_output_file_map_total :
    ∀ (cwd : Str) (args : Args),
      args.sources.Nodup →
      (∀ s ∈ args.sources, (pySplitext s).2 = strOf ".swift") →
      ∃ m, generate_output_file_map cwd args = .ok m ∧
        m.length = args.sources.length + 1 ∧
        m.map Prod.fst = ([] : Str) :: args.sources ∧
        ([] : Str) ∉ args.sources := by
  intro cwd args hnd hext
  have hnonempty : ∀ s ∈ args.sources, s ≠ ([] : Str) := by
    intro s hs he
    subst he
    have := hext _ hs
    exact absurd this (by decide)
  have hnotin : ∀ s ∈ args.sources,
      alookup [(([] : Str), generate_module_output_file_map_fragment cwd args)] s
        = none := by
    intro s hs
    simp [alookup, (hnonempty s hs).symm]
  obtain ⟨m', hfold, hkeys⟩ := generate_output_file_map_fold cwd args args.sources
    [(([] : Str), generate_module_output_file_map_fragment cwd args)] hnd hext hnotin
  refine ⟨m', hfold, ?_, ?_, ?_⟩
  · have := congrArg List.length hkeys
    simpa [Nat.add_comm] using this
  · simpa using hkeys
  · intro hmem
    exact hnonempty _ hmem rfl

/-- Witness for C3 (amended) on two concrete sources. -/
theorem c3_output_file_map_total_witness :
    ∃ m, generate_output_file_map (strOf "/cwd")
        ⟨strOf "M", strOf "/src", strOf "obj", false,
         [strOf "a.swift", strOf "b.swift"]⟩ = .ok m ∧
      m.length = [strOf "a.swift", strOf "b.swift"].length + 1 ∧
      m.map Prod.fst = ([] : Str) :: [strOf "a.swift", strOf "b.swift"] ∧
      ([] : Str) ∉ [strOf "a.swift", strOf "b.swift"] := by
  apply c3_output_file_map_total
  · decide
  · decide

/-- C4: mode-dependent record shapes.  With whole-module-optimization on,
a source-unit record carries only the object-path fields
(`index-unit-output-path` and `object`, both naming the unit's `.o`
artifact) and the module record alone carries the dependency-fragment
(`dependencies`), diagnostics and incremental-state (`swift-dependencies`)
fields; with it off, every source-unit record carries its own
`dependencies`/`diagnostics`/`swift-dependencies` (and `const-values`)
fields in addition to the object path, while the module record carries
`emit-module-dependencies`/`emit-module-diagnostics`/`swift-dependencies` —
in particular the dependency-fragment key `dependencies` appears only in
source-unit records, not in the module record. -/
theorem c4_output_file_map_mode_shapes :
    ∀ (cwd : Str) (args : Args) (filename : Str) (frag : List (Str × Str)),
      generate_source_output_file_map_fragment cwd args filename = .ok frag →
      ((args.whole_module_optimization = true →
          frag.map Prod.fst = [strOf "index-unit-output-path", strOf "object"] ∧
          (generate_module_output_file_map_fragment cwd args).map Prod.fst =
            [strOf "const-values", strOf "dependencies", strOf "diagnostics",
             strOf "swift-dependencies"]) ∧
       (args.whole_module_optimization = false →
          frag.map Prod.fst =
            [strOf "index-unit-output-path", strOf "object", strOf "const-values",
             strOf "dependencies", strOf "diagnostics", strOf "swift-dependencies"] ∧
          (generate_module_output_file_map_fragment cwd args).map Prod.fst =
            [strOf "emit-module-dependencies", strOf "emit-module-diagnostics",
             strOf "swift-dependencies"])) := by
  intro cwd args filename frag hok
  unfold generate_source_output_file_map_fragment at hok
  by_cases hext : (pySplitext filename).2 = strOf ".swift"
  · rw [if_pos hext] at hok
    constructor
    · intro hwmo
      rw [hwmo] at hok
      simp only [if_true, List.append_nil, Except.ok.injEq] at hok
      subst hok
      constructor
      · rfl
      · unfold generate_module_output_file_map_fragment
        rw [hwmo]
        rfl
    · intro hwmo
      rw [hwmo] at hok
      simp only [Bool.false_eq_true, if_false, Except.ok.injEq] at hok
      subst hok
      constructor
      · rfl
      · unfold generate_module_output_file_map_fragment
        rw [hwmo]
        rfl
  · rw [if_neg hext] at hok
    exact absurd hok (by simp)

/-- Concrete non-whole-module arguments for the C4 witness. -/
def c4args : Args := ⟨strOf "M", strOf "/src", strOf "obj", false, [strOf "a.swift"]⟩

/-- The source fragment produced for `a.swift` under `c4args` with
`cwd = /cwd`. -/
def c4frag : List (Str × Str) :=
  [(strOf "index-unit-output-path", strOf "/obj/a.o"),
   (strOf "object", strOf "/cwd/obj/a.o"),
   (strOf "const-values", strOf "/cwd/obj/a.swiftconstvalues"),
   (strOf "dependencies", strOf "/cwd/obj/a.d"),
   (strOf "diagnostics", strOf "/cwd/obj/a.dia"),
   (strOf "swift-dependencies", strOf "/cwd/obj/a.swiftdeps")]

/-- Witness for C4 in the whole-module-optimization-off mode. -/
theorem c4_output_file_map_mode_shapes_witness :
    generate_source_output_file_map_fragment (strOf "/cwd") c4args (strOf "a.swift")
      = .ok c4frag ∧
    c4frag.map Prod.fst =
      [strOf "index-unit-output-path", strOf "object", strOf "const-values",
       strOf "dependencies", strOf "diagnostics", strOf "swift-dependencies"] ∧
    (generate_module_output_file_map_fragment (strOf "/cwd") c4args).map Prod.fst =
      [strOf "emit-module-dependencies", strOf "emit-module-diagnostics",
       strOf "swift-dependencies"] :=
  ⟨rfl, (c4_output_file_map_mode_shapes (strOf "/cwd") c4args (strOf "a.swift")
      c4frag rfl).2 rfl⟩

/-! ### Depfile normalization (`swiftc.py` lines 375-415)

`generate_depfile` reads each dependency-fragment file named by a
`dependencies` entry of the output-file map, parses its
`output : inputs` lines, normalizes the paths, accumulates inputs per
output in a `defaultdict(set)`, and writes the sorted result through
`FileWriter`.  The model takes the fragments' contents directly (as lists
of lines, without the trailing newline each iterated Python line carries —
the newline is consumed by the whitespace `split()` of the input portion
and never reaches any output).  `xcode_paths` is the
realpath-prefix → symlink-prefix mapping built from the SDK's sibling
symlinks (lines 385-391); resolving symlinks is outside the model, so the
mapping is a parameter.  `os.getcwd()` is the explicit `cwd`. -/

/-- First occurrence of `sep` in `s` (Python `str.find`), returned as the
text before and after it. -/
def findOcc (s sep : Str) : Option (Str × Str) :=
  if sep.isPrefixOf s then some ([], s.drop sep.length)
  else
    match s with
    | [] => none
    | c :: cs =>
        match findOcc cs sep with
        | some (pre, post) => some (c :: pre, post)
        | none => none

/-- Python `str.split(sep, maxsplit)` (explicit separator), via a fuel
argument bounded by the string length; `sep` is nonempty at every use. -/
def pySplitAux (sep : Str) : Nat → Str → Nat → List Str
  | fuel + 1, s, m + 1 =>
      match findOcc s sep with
      | some (pre, post) => pre :: pySplitAux sep fuel post m
      | none => [s]
  | _, s, _ => [s]

def pySplit (s sep : Str) (maxsplit : Nat) : List Str :=
  pySplitAux sep (s.length + 1) s maxsplit

/-- The whitespace characters of Python `str.split()` (ASCII range). -/
def isWsChar (c : Char) : Bool :=
  c = ' ' ∨ c = '\t' ∨ c = '\n' ∨ c = '\x0b' ∨ c = '\x0c' ∨ c = '\r'

/-- Python `str.split()` with no separator: split on runs of whitespace,
dropping empty tokens. -/
def wsSplitAux : Str → Str → List Str
  | [], acc => if acc = [] then [] else [acc.reverse]
  | c :: cs, acc =>
      if isWsChar c then
        if acc = [] then wsSplitAux cs [] else acc.reverse :: wsSplitAux cs []
      else wsSplitAux cs (c :: acc)

def wsSplit (s : Str) : List Str := wsSplitAux s []

/-- The fragment-line separator `' : '`. -/
def depSep : Str := strOf " : "

/-- Line 402: `output, inputs = line.split(' : ', 2)` — the 2-tuple unpack
raises `ValueError` unless the split yields exactly two parts. -/
def parse_depfile_line (line : Str) : Except String (Str × Str) :=
  match pySplit line depSep 2 with
  | [o, i] => .ok (o, i)
  | _ => .error "ValueError: unpacking line.split result"

/-- Lines 406-408: rewrite a real toolchain/SDK prefix to its symlink. -/
def rewrite_path_step (xcode_paths : List (Str × Str)) (path : Str) : Str :=
  xcode_paths.foldl
    (fun p xp => if xp.1.isPrefixOf p then xp.2 ++ p.drop xp.1.length else p)
    path

/-- Lines 409-410: relativize to the working directory when under the
source root or the working directory. -/
def relativize_step (src_dir out_dir cwd : Str) (p : Str) : Str :=
  if src_dir.isPrefixOf p || out_dir.isPrefixOf p then relpath p out_dir cwd else p

/-- The full per-input-path transformation of the loop at lines 405-411. -/
def rewrite_input_path (xcode_paths : List (Str × Str)) (src_dir out_dir cwd : Str)
    (p : Str) : Str :=
  relativize_step src_dir out_dir cwd (rewrite_path_step xcode_paths p)

/-- `out_dir = os.getcwd() + os.sep` (line 393). -/
def depfile_out_dir (cwd : Str) : Str := cwd ++ strOf "/"

/-- `src_dir = os.path.abspath(args.src_dir) + os.path.sep` (line 394). -/
def depfile_src_dir (src_dir_arg cwd : Str) : Str :=
  abspath src_dir_arg cwd ++ strOf "/"

/-- `depfile_content[output].add(path)` on the `defaultdict(set)`,
modelled as an insertion-ordered association list of duplicate-free input
lists (the final rendering sorts both levels, so only the underlying sets
matter). -/
def addDep (m : List (Str × List Str)) (k v : Str) : List (Str × List Str) :=
  match alookup m k with
  | some ins => dictReplace m k (if v ∈ ins then ins else ins ++ [v])
  | none => m ++ [(k, [v])]

/-- Process one fragment line (lines 401-411): parse, relativize the
output, rewrite and accumulate each input.  An empty output path would make
`os.path.relpath` raise `ValueError`. -/
def process_depfile_line (xcode_paths : List (Str × Str)) (src_dir out_dir cwd : Str)
    (m : List (Str × List Str)) (line : Str) :
    Except String (List (Str × List Str)) := do
  let (output, inputs) ← parse_depfile_line line
  if output = [] then throw "ValueError: no path specified"
  else
    pure ((wsSplit inputs).foldl
      (fun m p => addDep m (relpath output out_dir cwd)
        (rewrite_input_path xcode_paths src_dir out_dir cwd p)) m)

/-- `generate_depfile`, with the fragment files' contents supplied directly
(each fragment is its list of lines): accumulate all fragments, then render
one `output: sorted-inputs` line per output, outputs sorted (Python sorts
the dict's (key, value) pairs; keys are unique so only key order matters). -/
def generate_depfile_content (xcode_paths : List (Str × Str))
    (src_dir_arg cwd : Str) (fragments : List (List Str)) : Except String Str := do
  let m ← fragments.foldlM
    (fun m frag => frag.foldlM
      (process_depfile_line xcode_paths (depfile_src_dir src_dir_arg cwd)
        (depfile_out_dir cwd) cwd) m) []
  pure ((sortLe (fun p q => strLe p.1 q.1) m).foldl
    (fun acc kv => acc ++ kv.1 ++ strOf ": "
      ++ List.intercalate (strOf " ") (sortStrs kv.2) ++ ['\n']) [])

theorem depSep_chars : depSep = [' ', ':', ' '] := rfl

theorem pySplitAux_step (sep : Str) (f : Nat) (s : Str) (m : Nat) (pre post : Str)
    (h : findOcc s sep = some (pre, post)) :
    pySplitAux sep (f + 1) s (m + 1) = pre :: pySplitAux sep f post m := by
  conv_lhs => rw [pySplitAux]
  rw [h]

theorem pySplitAux_none (sep s : Str) (h : findOcc s sep = none) :
    ∀ f m, pySplitAux sep f s m = [s] := by
  intro f m
  cases f with
  | zero => rfl
  | succ f' =>
    cases m with
    | zero => rfl
    | succ m' =>
      unfold pySplitAux
      rw [h]

theorem pySplitAux_maxsplit_zero (sep : Str) (f : Nat) (s : Str) :
    pySplitAux sep f s 0 = [s] := by
  cases f <;> rfl

/-- A path without spaces followed by `' : '` puts the first separator
occurrence exactly at the boundary. -/
theorem findOcc_out_sep (out rest : Str) (h : ∀ c ∈ out, c ≠ ' ') :
    findOcc (out ++ depSep ++ rest) depSep = some (out, rest) := by
  induction out with
  | nil =>
    show findOcc (depSep ++ rest) depSep = some ([], rest)
    unfold findOcc
    rw [if_pos (List.isPrefixOf_iff_prefix.mpr (List.prefix_append depSep rest))]
    rw [List.drop_left depSep rest]
  | cons c out' ih =>
    have hc : c ≠ ' ' := h c (List.mem_cons_self _ _)
    show findOcc (c :: (out' ++ depSep ++ rest)) depSep = some (c :: out', rest)
    unfold findOcc
    rw [if_neg ?hpre]
    case hpre =>
      intro hpre
      rw [depSep_chars] at hpre
      simp only [List.isPrefixOf, Bool.and_eq_true, beq_iff_eq] at hpre
      exact hc hpre.1.symm
    show (match findOcc (out' ++ depSep ++ rest) depSep with
      | some (pre, post) => some (c :: pre, post)
      | none => none) = some (c :: out', rest)
    rw [ih (fun d hd => h d (List.mem_cons_of_mem _ hd))]

/-- A string without space characters contains no `' : '` occurrence. -/
theorem findOcc_none_of_no_space (s : Str) (h : ∀ c ∈ s, c ≠ ' ') :
    findOcc s depSep = none := by
  induction s with
  | nil => rfl
  | cons c cs ih =>
    unfold findOcc
    rw [if_neg ?hpre]
    case hpre =>
      intro hpre
      rw [depSep_chars] at hpre
      simp only [List.isPrefixOf, Bool.and_eq_true, beq_iff_eq] at hpre
      exact h c (List.mem_cons_self _ _) hpre.1.symm
    show (match findOcc cs depSep with
      | some (pre, post) => some (c :: pre, post)
      | none => none) = none
    rw [ih (fun d hd => h d (List.mem_cons_of_mem _ hd))]

/-- Two whitespace-free tokens joined by a single space contain no
`' : '` occurrence: the only space has a non-space (or nothing) on each
side where the separator would need `' '`, `':'`, `' '`. -/
theorem findOcc_none_token_pair (x y : Str)
    (hx : ∀ c ∈ x, isWsChar c = false) (hy : ∀ c ∈ y, isWsChar c = false) :
    findOcc (x ++ ' ' :: y) depSep = none := by
  have hx' : ∀ c ∈ x, c ≠ ' ' := by
    intro c hc he
    subst he
    have := hx _ hc
    exact absurd this (by decide)
  have hy' : ∀ c ∈ y, c ≠ ' ' := by
    intro c hc he
    subst he
    have := hy _ hc
    exact absurd this (by decide)
  induction x with
  | nil =>
    show findOcc (' ' :: y) depSep = none
    unfold findOcc
    rw [if_neg ?hpre]
    case hpre =>
      intro hpre
      rw [depSep_chars] at hpre
      simp only [List.isPrefixOf, Bool.and_eq_true, beq_iff_eq] at hpre
      rcases hpre with ⟨-, hpre⟩
      cases y with
      | nil => simp [List.isPrefixOf] at hpre
      | cons d ds =>
        simp only [List.isPrefixOf, Bool.and_eq_true, beq_iff_eq] at hpre
        cases ds with
        | nil => simp [List.isPrefixOf] at hpre
        | cons e es =>
          simp only [List.isPrefixOf, Bool.and_eq_true, beq_iff_eq] at hpre
          exact hy' e (List.mem_cons_of_mem _ (List.mem_cons_self _ _)) hpre.2.1.symm
    show (match findOcc y depSep with
      | some (pre, post) => some (' ' :: pre, post)
      | none => none) = none
    rw [findOcc_none_of_no_space y hy']
  | cons c x' ih =>
    have hc : c ≠ ' ' := hx' c (List.mem_cons_self _ _)
    show findOcc (c :: (x' ++ ' ' :: y)) depSep = none
    unfold findOcc
    rw [if_neg ?hpre]
    case hpre =>
      intro hpre
      rw [depSep_chars] at hpre
      simp only [List.isPrefixOf, Bool.and_eq_true, beq_iff_eq] at hpre
      exact hc hpre.1.symm
    show (match findOcc (x' ++ ' ' :: y) depSep with
      | some (pre, post) => some (c :: pre, post)
      | none => none) = none
    rw [ih (fun d hd => hx d (List.mem_cons_of_mem _ hd))
      (fun d hd => hx' d (List.mem_cons_of_mem _ hd))]

/-- Splitting a well-formed line: a single separator yields exactly the
(output, inputs) pair. -/
theorem parse_line_single_sep (out rest : Str)
    (hout : ∀ c ∈ out, c ≠ ' ') (hrest : findOcc rest depSep = none) :
    parse_depfile_line (out ++ depSep ++ rest) = .ok (out, rest) := by
  unfold parse_depfile_line pySplit
  obtain ⟨k, hk⟩ : ∃ k, (out ++ depSep ++ rest).length = k + 1 := by
    refine ⟨(out ++ depSep ++ rest).length - 1, ?_⟩
    have : 0 < (out ++ depSep ++ rest).length := by
      simp [depSep_chars]
    omega
  rw [hk]
  show (match pySplitAux depSep ((k + 1) + 1) (out ++ depSep ++ rest) (1 + 1) with
    | [o, i] => Except.ok (o, i)
    | _ => Except.error "ValueError: unpacking line.split result") = _
  rw [pySplitAux_step depSep (k + 1) _ 1 out rest (findOcc_out_sep out rest hout)]
  rw [pySplitAux_none depSep rest hrest]

/-- Splitting a line whose input portion contains a further separator:
`split(' : ', 2)` yields three parts and the 2-tuple unpack fails. -/
theorem parse_line_double_sep (out rest a b : Str)
    (hout : ∀ c ∈ out, c ≠ ' ') (hrest : findOcc rest depSep = some (a, b)) :
    parse_depfile_line (out ++ depSep ++ rest)
      = .error "ValueError: unpacking line.split result" := by
  unfold parse_depfile_line pySplit
  obtain ⟨k, hk⟩ : ∃ k, (out ++ depSep ++ rest).length = k + 1 := by
    refine ⟨(out ++ depSep ++ rest).length - 1, ?_⟩
    have : 0 < (out ++ depSep ++ rest).length := by
      simp [depSep_chars]
    omega
  rw [hk]
  show (match pySplitAux depSep ((k + 1) + 1) (out ++ depSep ++ rest) (1 + 1) with
    | [o, i] => Except.ok (o, i)
    | _ => Except.error "ValueError: unpacking line.split result") = _
  rw [pySplitAux_step depSep (k + 1) _ 1 out rest (findOcc_out_sep out rest hout)]
  have htail : pySplitAux depSep (k + 1) rest 1 = [a, b] := by
    show pySplitAux depSep (k + 1) rest (0 + 1) = [a, b]
    rw [pySplitAux_step depSep k rest 0 a b hrest]
    rw [pySplitAux_maxsplit_zero depSep k b]
  rw [htail]

/-- Counterexample to C6 as stated: the claim promises that a line whose
input portion itself contains a further `' : '` is still parsed with
everything after the first separator treated as inputs, but the code calls
`line.split(' : ', 2)` (maxsplit 2, up to three parts), so the two-variable
unpack raises `ValueError` on `'o : a : b'` instead of parsing it. -/
theorem c6_counterexample_double_separator :
    parse_depfile_line (strOf "o : a : b")
      = .error "ValueError: unpacking line.split result" ∧
    parse_depfile_line (strOf "o : a : b") ≠ .ok (strOf "o", strOf "a : b") := by
  constructor
  · rfl
  · intro h
    rw [show parse_depfile_line (strOf "o : a : b")
        = .error "ValueError: unpacking line.split result" from rfl] at h
    exact Except.noConfusion h

/-- C6 (amended): the depfile parser splits a fragment line at the first
`' : '` separator — for a space-free output path, a line
`output ++ ' : ' ++ inputs` with no further `' : '` in `inputs` parses into
that output and input portion; but when the input portion contains another
`' : '`, the `line.split(' : ', 2)` call yields three parts and the
two-variable unpacking raises `ValueError` instead of parsing. -/
theorem c6_parse_splits_at_first_separator :
    ∀ (out rest a b : Str),
      (∀ c ∈ out, c ≠ ' ') →
      ((findOcc rest depSep = none →
          parse_depfile_line (out ++ depSep ++ rest) = .ok (out, rest)) ∧
       (findOcc rest depSep = some (a, b) →
          parse_depfile_line (out ++ depSep ++ rest)
            = .error "ValueError: unpacking line.split result")) := by
  intro out rest a b hout
  exact ⟨fun h => parse_line_single_sep out rest hout h,
    fun h => parse_line_double_sep out rest a b hout h⟩

/-- Witness for C6 (amended): the line `'o : a b.h'` parses into output
`'o'` and inputs `'a b.h'`, and `'o : a : b'` fails to parse. -/
theorem c6_parse_splits_at_first_separator_witness :
    parse_depfile_line (strOf "o : a b.h") = .ok (strOf "o", strOf "a b.h") ∧
    parse_depfile_line (strOf "o : a : b")
      = .error "ValueError: unpacking line.split result" := by
  have h := c6_parse_splits_at_first_separator (strOf "o") (strOf "a b.h")
    (strOf "a") (strOf "b") (by decide)
  constructor
  · exact h.1 (by decide)
  · have h₂ := c6_parse_splits_at_first_separator (strOf "o") (strOf "a : b")
      (strOf "a") (strOf "b") (by decide)
    exact h₂.2 (by decide)

theorem rewrite_path_step_cons (x : Str × Str) (rest : List (Str × Str)) (p : Str) :
    rewrite_path_step (x :: rest) p =
      rewrite_path_step rest
        (if x.1.isPrefixOf p then x.2 ++ p.drop x.1.length else p) := rfl

theorem rewrite_path_step_append (l₁ l₂ : List (Str × Str)) (p : Str) :
    rewrite_path_step (l₁ ++ l₂) p = rewrite_path_step l₂ (rewrite_path_step l₁ p) := by
  unfold rewrite_path_step
  rw [List.foldl_append]

theorem rewrite_path_step_no_match (l : List (Str × Str)) (p : Str)
    (h : ∀ xp ∈ l, xp.1.isPrefixOf p = false) : rewrite_path_step l p = p := by
  induction l with
  | nil => rfl
  | cons x rest ih =>
    rw [rewrite_path_step_cons, h x (List.mem_cons_self _ _)]
    exact ih (fun xp hxp => h xp (List.mem_cons_of_mem _ hxp))

/-- C7: normalization of each dependency-fragment input path.  The
transformation first applies the toolchain/SDK symlink rewrite, then the
relativization: (a) the composite is exactly rewrite-then-relativize;
(b) a path under none of the known real toolchain/SDK prefixes is left
unchanged by the rewrite; (c) a path under a known real prefix has that
prefix replaced by the corresponding symlink prefix (stated for the
matching entry, with no earlier entry matching the path and no later entry
matching the rewritten path — the loop applies entries in dict order);
(d) a (possibly rewritten) path under the source root or the working
directory is made relative to the working directory; (e) any other path is
left absolute, i.e. unchanged. -/
theorem c7_depfile_input_path_normalization :
    ∀ (xps : List (Str × Str)) (src_arg cwd p : Str), p ≠ [] →
      (rewrite_input_path xps (depfile_src_dir src_arg cwd) (depfile_out_dir cwd)
          cwd p
        = relativize_step (depfile_src_dir src_arg cwd) (depfile_out_dir cwd) cwd
            (rewrite_path_step xps p)) ∧
      ((∀ xp ∈ xps, xp.1.isPrefixOf p = false) → rewrite_path_step xps p = p) ∧
      (∀ (l₁ l₂ : List (Str × Str)) (real link rest : Str),
        xps = l₁ ++ (real, link) :: l₂ → p = real ++ rest →
        (∀ xp ∈ l₁, xp.1.isPrefixOf p = false) →
        (∀ xp ∈ l₂, xp.1.isPrefixOf (link ++ rest) = false) →
        rewrite_path_step xps p = link ++ rest) ∧
      (∀ q : Str,
        ((depfile_src_dir src_arg cwd).isPrefixOf q
          || (depfile_out_dir cwd).isPrefixOf q) = true →
        relativize_step (depfile_src_dir src_arg cwd) (depfile_out_dir cwd) cwd q
          = relpath q (depfile_out_dir cwd) cwd) ∧
      (∀ q : Str,
        ((depfile_src_dir src_arg cwd).isPrefixOf q
          || (depfile_out_dir cwd).isPrefixOf q) = false →
        relativize_step (depfile_src_dir src_arg cwd) (depfile_out_dir cwd) cwd q
          = q) := by
  intro xps src_arg cwd p _
  refine ⟨rfl, ?_, ?_, ?_, ?_⟩
  · exact rewrite_path_step_no_match xps p
  · intro l₁ l₂ real link rest hxps hp h₁ h₂
    subst hxps
    subst hp
    rw [rewrite_path_step_append, rewrite_path_step_no_match l₁ _ h₁,
      rewrite_path_step_cons]
    have hpre : real.isPrefixOf (real ++ rest) = true :=
      List.isPrefixOf_iff_prefix.mpr (List.prefix_append real rest)
    rw [hpre]
    simp only [if_true]
    rw [List.drop_left real rest]
    exact rewrite_path_step_no_match l₂ _ h₂
  · intro q hq
    unfold relativize_step
    rw [hq]
    rfl
  · intro q hq
    unfold relativize_step
    rw [hq]
    rfl

/-- Witness for C7: input `/lib/real/h.h` with the symlink map
`{/lib/real/ ↦ /lib/link/}`, source root `/src`, working directory `/tmp`:
the prefix is rewritten to the symlink and the result, under neither root,
stays absolute. -/
theorem c7_depfile_input_path_normalization_witness :
    rewrite_path_step [(strOf "/lib/real/", strOf "/lib/link/")]
        (strOf "/lib/real/h.h") = strOf "/lib/link/h.h" ∧
    rewrite_input_path [(strOf "/lib/real/", strOf "/lib/link/")]
        (depfile_src_dir (strOf "/src") (strOf "/tmp"))
        (depfile_out_dir (strOf "/tmp")) (strOf "/tmp") (strOf "/lib/real/h.h")
      = strOf "/lib/link/h.h" := by
  have h := c7_depfile_input_path_normalization
    [(strOf "/lib/real/", strOf "/lib/link/")] (strOf "/src") (strOf "/tmp")
    (strOf "/lib/real/h.h") (by decide)
  have hrw : rewrite_path_step [(strOf "/lib/real/", strOf "/lib/link/")]
      (strOf "/lib/real/h.h") = strOf "/lib/link/h.h" := by
    have := h.2.2.1 [] [] (strOf "/lib/real/") (strOf "/lib/link/") (strOf "h.h")
      rfl (by decide) (by decide) (by decide)
    rw [this]
    decide
  refine ⟨hrw, ?_⟩
  rw [h.1, hrw]
  exact h.2.2.2.2 (strOf "/lib/link/h.h") (by decide)

theorem wsSplitAux_append_token (x : Str) :
    ∀ (rest acc : Str), (∀ c ∈ x, isWsChar c = false) →
      wsSplitAux (x ++ rest) acc = wsSplitAux rest (x.reverse ++ acc) := by
  induction x with
  | nil =>
    intro rest acc _
    simp
  | cons c x' ih =>
    intro rest acc h
    have hc : isWsChar c = false := h c (List.mem_cons_self _ _)
    show wsSplitAux (c :: (x' ++ rest)) acc = _
    conv_lhs => rw [wsSplitAux]
    simp only [hc, Bool.false_eq_true, if_false]
    rw [ih rest (c :: acc) (fun d hd => h d (List.mem_cons_of_mem _ hd))]
    simp [List.append_assoc]

theorem wsSplitAux_nil_acc (acc : Str) (h : acc ≠ []) :
    wsSplitAux [] acc = [acc.reverse] := by
  unfold wsSplitAux
  rw [if_neg h]

theorem wsSplit_single_token (y : Str)
    (hy : ∀ c ∈ y, isWsChar c = false) (hyne : y ≠ []) :
    wsSplitAux y [] = [y] := by
  have h := wsSplitAux_append_token y [] [] hy
  rw [List.append_nil, List.append_nil] at h
  rw [h, wsSplitAux_nil_acc _ (by simpa using hyne), List.reverse_reverse]

/-- Python `'x y'.split()` on two whitespace-free nonempty tokens. -/
theorem wsSplit_token_pair (x y : Str)
    (hx : ∀ c ∈ x, isWsChar c = false) (hxne : x ≠ [])
    (hy : ∀ c ∈ y, isWsChar c = false) (hyne : y ≠ []) :
    wsSplit (x ++ ' ' :: y) = [x, y] := by
  unfold wsSplit
  rw [wsSplitAux_append_token x (' ' :: y) [] hx, List.append_nil]
  conv_lhs => rw [wsSplitAux]
  simp only [show isWsChar ' ' = true from rfl, if_true]
  rw [if_neg (by simpa using hxne)]
  rw [List.reverse_reverse, wsSplit_single_token y hy hyne]

theorem alookup_cons_self {α : Type} (k : Str) (v : α) (rest : List (Str × α)) :
    alookup ((k, v) :: rest) k = some v := by
  simp only [alookup]
  rw [if_pos trivial]

theorem dictReplace_cons_self {α : Type} (k : Str) (v' v : α) (rest : List (Str × α)) :
    dictReplace ((k, v') :: rest) k v = (k, v) :: dictReplace rest k v := by
  simp only [dictReplace]
  rw [if_pos trivial]

theorem addDep_absent (m : List (Str × List Str)) (k v : Str)
    (h : alookup m k = none) : addDep m k v = m ++ [(k, [v])] := by
  unfold addDep
  rw [h]

theorem addDep_present (m : List (Str × List Str)) (k v : Str) (ins : List Str)
    (h : alookup m k = some ins) :
    addDep m k v = dictReplace m k (if v ∈ ins then ins else ins ++ [v]) := by
  unfold addDep
  rw [h]

/-- A singleton accumulator: inserting at its only key. -/
theorem addDep_singleton (k v : Str) (ins : List Str) :
    addDep [(k, ins)] k v = [(k, if v ∈ ins then ins else ins ++ [v])] := by
  rw [addDep_present [(k, ins)] k v ins (alookup_cons_self k ins [])]
  rw [dictReplace_cons_self]
  rfl

theorem process_line_ok (xps : List (Str × Str)) (srcD outD cwd : Str)
    (m : List (Str × List Str)) (out rest : Str)
    (hout : ∀ c ∈ out, c ≠ ' ') (houtne : out ≠ [])
    (hrest : findOcc rest depSep = none) :
    process_depfile_line xps srcD outD cwd m (out ++ depSep ++ rest)
      = .ok ((wsSplit rest).foldl
          (fun m p => addDep m (relpath out outD cwd)
            (rewrite_input_path xps srcD outD cwd p)) m) := by
  unfold process_depfile_line
  rw [parse_line_single_sep out rest hout hrest]
  show (if out = [] then (throw "ValueError: no path specified"
        : Except String (List (Str × List Str)))
      else pure ((wsSplit rest).foldl
        (fun m p => addDep m (relpath out outD cwd)
          (rewrite_input_path xps srcD outD cwd p)) m)) = _
  rw [if_neg houtne]
  rfl

theorem render_singleton (K : Str) (ins : List Str) :
    (sortLe (fun p q => strLe p.1 q.1) [(K, ins)]).foldl
      (fun acc kv => acc ++ kv.1 ++ strOf ": "
        ++ List.intercalate (strOf " ") (sortStrs kv.2) ++ ['\n']) []
      = K ++ strOf ": " ++ List.intercalate (strOf " ") (sortStrs ins) ++ ['\n'] := by
  show ([] ++ K ++ strOf ": " ++ List.intercalate (strOf " ") (sortStrs ins) ++ ['\n'])
    = K ++ strOf ": " ++ List.intercalate (strOf " ") (sortStrs ins) ++ ['\n']
  rw [List.nil_append]

theorem except_bind_ok {α β : Type} (a : α) (k : α → Except String β) :
    (Except.ok a >>= k) = k a := rfl

theorem except_pure_eq_ok {α : Type} (a : α) : (pure a : Except String α) = .ok a := rfl

/-- Running `generate_depfile` over two one-line fragments whose lines
process successively to `m₁` and `m₂`. -/
theorem generate_depfile_content_two_fragments (xps : List (Str × Str))
    (src_arg cwd : Str) (l₁ l₂ : Str) (m₁ m₂ : List (Str × List Str))
    (h1 : process_depfile_line xps (depfile_src_dir src_arg cwd)
        (depfile_out_dir cwd) cwd [] l₁ = .ok m₁)
    (h2 : process_depfile_line xps (depfile_src_dir src_arg cwd)
        (depfile_out_dir cwd) cwd m₁ l₂ = .ok m₂) :
    generate_depfile_content xps src_arg cwd [[l₁], [l₂]]
      = .ok ((sortLe (fun p q => strLe p.1 q.1) m₂).foldl
          (fun acc kv => acc ++ kv.1 ++ strOf ": "
            ++ List.intercalate (strOf " ") (sortStrs kv.2) ++ ['\n']) []) := by
  unfold generate_depfile_content
  simp only [List.foldlM_cons, List.foldlM_nil, h1, h2, except_bind_ok,
    except_pure_eq_ok]

/-- C5: two dependency fragments declaring the same output path, with input
sets `{x, y}` and `{y, z}`, merge into the single depfile line mapping the
output (relativized to the working directory) to the sorted, space-joined,
duplicate-free union `{x, y, z}`; the result is byte-identical when the
fragments are processed in the opposite order.  Inputs are assumed outside
every rewrite domain (the claim is about merging, not rewriting). -/
theorem c5_depfile_merge_union_sorted :
    ∀ (xps : List (Str × Str)) (src_arg cwd out x y z : Str),
      (∀ c ∈ out, c ≠ ' ') → out ≠ [] →
      (∀ c ∈ x, isWsChar c = false) → x ≠ [] →
      (∀ c ∈ y, isWsChar c = false) → y ≠ [] →
      (∀ c ∈ z, isWsChar c = false) → z ≠ [] →
      x ≠ y → y ≠ z → x ≠ z →
      (∀ w ∈ [x, y, z], rewrite_input_path xps (depfile_src_dir src_arg cwd)
          (depfile_out_dir cwd) cwd w = w) →
      (generate_depfile_content xps src_arg cwd
          [[out ++ depSep ++ (x ++ ' ' :: y)], [out ++ depSep ++ (y ++ ' ' :: z)]]
        = .ok (relpath out (depfile_out_dir cwd) cwd ++ strOf ": "
            ++ List.intercalate (strOf " ") (sortStrs [x, y, z]) ++ ['\n']) ∧
       generate_depfile_content xps src_arg cwd
          [[out ++ depSep ++ (y ++ ' ' :: z)], [out ++ depSep ++ (x ++ ' ' :: y)]]
        = .ok (relpath out (depfile_out_dir cwd) cwd ++ strOf ": "
            ++ List.intercalate (strOf " ") (sortStrs [x, y, z]) ++ ['\n'])) := by
  intro xps src_arg cwd out x y z hout houtne hx hxne hy hyne hz hzne hxy hyz hxz hid
  have hidx := hid x (by simp)
  have hidy := hid y (by simp)
  have hidz := hid z (by simp)
  have hnotmem_x : ¬ y ∈ [x] := by
    simp only [List.mem_singleton]
    exact fun h => hxy h.symm
  have hmem_y : y ∈ [x, y] := by simp
  have hnotmem_z : ¬ z ∈ [x, y] := by
    simp only [List.mem_cons, List.mem_singleton, List.not_mem_nil, or_false]
    rintro (h | h)
    · exact hxz h.symm
    · exact hyz h.symm
  have hnotmem_x' : ¬ x ∈ [y, z] := by
    simp only [List.mem_cons, List.mem_singleton, List.not_mem_nil, or_false]
    rintro (h | h)
    · exact hxy h
    · exact hxz h
  have hmem_y' : y ∈ [y, z, x] := by simp
  have hfind1 := findOcc_none_token_pair x y hx hy
  have hfind2 := findOcc_none_token_pair y z hy hz
  -- accumulator computations, first order
  have hA1 : (wsSplit (x ++ ' ' :: y)).foldl
      (fun m p => addDep m (relpath out (depfile_out_dir cwd) cwd)
        (rewrite_input_path xps (depfile_src_dir src_arg cwd)
          (depfile_out_dir cwd) cwd p)) []
      = [(relpath out (depfile_out_dir cwd) cwd, [x, y])] := by
    rw [wsSplit_token_pair x y hx hxne hy hyne]
    simp only [List.foldl_cons, List.foldl_nil, hidx, hidy]
    rw [addDep_absent [] _ x rfl, List.nil_append]
    rw [addDep_singleton _ y [x], if_neg hnotmem_x]
    rfl
  have hA2 : (wsSplit (y ++ ' ' :: z)).foldl
      (fun m p => addDep m (relpath out (depfile_out_dir cwd) cwd)
        (rewrite_input_path xps (depfile_src_dir src_arg cwd)
          (depfile_out_dir cwd) cwd p))
      [(relpath out (depfile_out_dir cwd) cwd, [x, y])]
      = [(relpath out (depfile_out_dir cwd) cwd, [x, y, z])] := by
    rw [wsSplit_token_pair y z hy hyne hz hzne]
    simp only [List.foldl_cons, List.foldl_nil, hidy, hidz]
    rw [addDep_singleton _ y [x, y], if_pos hmem_y]
    rw [addDep_singleton _ z [x, y], if_neg hnotmem_z]
    rfl
  -- accumulator computations, reversed order
  have hB1 : (wsSplit (y ++ ' ' :: z)).foldl
      (fun m p => addDep m (relpath out (depfile_out_dir cwd) cwd)
        (rewrite_input_path xps (depfile_src_dir src_arg cwd)
          (depfile_out_dir cwd) cwd p)) []
      = [(relpath out (depfile_out_dir cwd) cwd, [y, z])] := by
    rw [wsSplit_token_pair y z hy hyne hz hzne]
    simp only [List.foldl_cons, List.foldl_nil, hidy, hidz]
    rw [addDep_absent [] _ y rfl, List.nil_append]
    rw [addDep_singleton _ z [y], if_neg (by
      simp only [List.mem_singleton]
      exact fun h => hyz h.symm)]
    rfl
  have hB2 : (wsSplit (x ++ ' ' :: y)).foldl
      (fun m p => addDep m (relpath out (depfile_out_dir cwd) cwd)
        (rewrite_input_path xps (depfile_src_dir src_arg cwd)
          (depfile_out_dir cwd) cwd p))
      [(relpath out (depfile_out_dir cwd) cwd, [y, z])]
      = [(relpath out (depfile_out_dir cwd) cwd, [y, z, x])] := by
    rw [wsSplit_token_pair x y hx hxne hy hyne]
    simp only [List.foldl_cons, List.foldl_nil, hidx, hidy]
    rw [addDep_singleton _ x [y, z], if_neg hnotmem_x']
    show addDep [(relpath out (depfile_out_dir cwd) cwd, [y, z, x])]
        (relpath out (depfile_out_dir cwd) cwd) y
      = [(relpath out (depfile_out_dir cwd) cwd, [y, z, x])]
    rw [addDep_singleton _ y [y, z, x], if_pos hmem_y']
  have hsort : sortStrs [y, z, x] = sortStrs [x, y, z] := by
    apply sortStrs_eq_of_perm
    exact (List.Perm.cons y (List.Perm.swap x z [])).trans (List.Perm.swap x y [z])
  constructor
  · rw [generate_depfile_content_two_fragments xps src_arg cwd _ _
      [(relpath out (depfile_out_dir cwd) cwd, [x, y])]
      [(relpath out (depfile_out_dir cwd) cwd, [x, y, z])]
      (by rw [process_line_ok xps _ _ cwd [] out (x ++ ' ' :: y) hout houtne hfind1,
        hA1])
      (by rw [process_line_ok xps _ _ cwd _ out (y ++ ' ' :: z) hout houtne hfind2,
        hA2])]
    rw [render_singleton]
  · rw [generate_depfile_content_two_fragments xps src_arg cwd _ _
      [(relpath out (depfile_out_dir cwd) cwd, [y, z])]
      [(relpath out (depfile_out_dir cwd) cwd, [y, z, x])]
      (by rw [process_line_ok xps _ _ cwd [] out (y ++ ' ' :: z) hout houtne hfind2,
        hB1])
      (by rw [process_line_ok xps _ _ cwd _ out (x ++ ' ' :: y) hout houtne hfind1,
        hB2])]
    rw [render_singleton, hsort]

/-- Witness for C5: fragments `/c/obj/f.o : p.h q.h` and
`/c/obj/f.o : q.h r.h` with working directory `/c` merge, in either
processing order, into the byte-identical depfile
`obj/f.o: p.h q.h r.h\n`. -/
theorem c5_depfile_merge_union_sorted_witness :
    generate_depfile_content [] (strOf "/s") (strOf "/c")
        [[strOf "/c/obj/f.o" ++ depSep ++ (strOf "p.h" ++ ' ' :: strOf "q.h")],
         [strOf "/c/obj/f.o" ++ depSep ++ (strOf "q.h" ++ ' ' :: strOf "r.h")]]
      = .ok (strOf "obj/f.o: p.h q.h r.h\n") ∧
    generate_depfile_content [] (strOf "/s") (strOf "/c")
        [[strOf "/c/obj/f.o" ++ depSep ++ (strOf "q.h" ++ ' ' :: strOf "r.h")],
         [strOf "/c/obj/f.o" ++ depSep ++ (strOf "p.h" ++ ' ' :: strOf "q.h")]]
      = .ok (strOf "obj/f.o: p.h q.h r.h\n") := by
  have h := c5_depfile_merge_union_sorted [] (strOf "/s") (strOf "/c")
    (strOf "/c/obj/f.o") (strOf "p.h") (strOf "q.h") (strOf "r.h")
    (by decide) (by decide) (by decide) (by decide) (by decide) (by decide)
    (by decide) (by decide) (by decide) (by decide) (by decide) (by decide)
  constructor
  · rw [h.1]
    exact congrArg Except.ok (by decide)
  · rw [h.2]
    exact congrArg Except.ok (by decide)

end Swiftc
